import Mathlib

/-!
Verification of the intent-classification chatbot pipeline
(`src/train.py` and `src/app.py`).

The Python sources drive a scikit-learn pipeline.  The shallow embedding
below translates the repository's own code directly; the library calls it
makes (`str.strip`, `str.lower`, `random.choice`, numpy `argmax`/`max`,
scikit-learn's `TfidfVectorizer`, `LabelEncoder`, `LogisticRegression`,
`train_test_split`) are modelled by their documented semantics.  Real-number
quantities (tf-idf weights, class probabilities) are represented over `ℚ`;
the transcendental parts (the idf logarithm, the soft-max exponential, the
fitted coefficients) are abstract parameters, since no claim depends on
their numeric values, only on how the repository's code routes them.
-/

namespace Dekut

/-- Python whitespace characters recognised by `str.strip()` (ASCII model). -/
def pyIsSpace (c : Char) : Bool :=
  c == ' ' || c == '\t' || c == '\n' || c == '\r' || c == '\x0b' || c == '\x0c'

/-- Model of Python `str.strip()`: drop leading and trailing whitespace. -/
def pyStrip (s : String) : String :=
  String.mk (((s.toList.dropWhile pyIsSpace).reverse.dropWhile pyIsSpace).reverse)

/-- Model of Python `str.lower()` (ASCII model): lower-case each character. -/
def pyLower (s : String) : String :=
  String.mk (s.data.map Char.toLower)

/-- Lexicographic comparison of character lists by code point. -/
def charListLe : List Char → List Char → Bool
  | [], _ => true
  | _ :: _, [] => false
  | a :: as, b :: bs =>
    if a.toNat < b.toNat then true
    else if b.toNat < a.toNat then false
    else charListLe as bs

/-- Alphabetical (code-point) order on strings: the order in which
`numpy.unique` returns label classes and `_sort_features` orders the
vocabulary. -/
def alphaLe (a b : String) : Prop :=
  charListLe a.data b.data = true

instance : DecidableRel alphaLe :=
  fun a b => inferInstanceAs (Decidable (charListLe a.data b.data = true))

instance {ε α : Type} [DecidableEq ε] [DecidableEq α] : DecidableEq (Except ε α) :=
  fun a b =>
    match a, b with
    | .ok x, .ok y => decidable_of_iff (x = y) (by simp)
    | .error x, .error y => decidable_of_iff (x = y) (by simp)
    | .ok _, .error _ => isFalse (by simp)
    | .error _, .ok _ => isFalse (by simp)

/-- Model of Python `random.choice(seq)`: the random draw is made explicit as
a natural-number argument `rng`; the chosen element is `seq[rng % len(seq)]`.
On an empty sequence `random.choice` raises `IndexError`. -/
def randomChoiceE (rng : Nat) : List String → Except String String
  | [] => .error "Cannot choose from an empty sequence"
  | x :: xs => .ok ((x :: xs).getD (rng % (x :: xs).length) x)

/-- Model of `numpy.argmax` over a vector: index of the first maximal entry;
raises on an empty vector. -/
def argmaxAux : List ℚ → Nat → Nat → ℚ → Nat
  | [], _, bestIdx, _ => bestIdx
  | x :: xs, i, bestIdx, bestVal =>
    if bestVal < x then argmaxAux xs (i + 1) i x
    else argmaxAux xs (i + 1) bestIdx bestVal

/-- `numpy.argmax`, fallible on empty input. -/
def npArgmax : List ℚ → Except String Nat
  | [] => .error "attempt to get argmax of an empty sequence"
  | x :: xs => .ok (argmaxAux xs 1 0 x)

/-- `numpy.max`, fallible on empty input. -/
def npMax : List ℚ → Except String ℚ
  | [] => .error "attempt to get max of an empty sequence"
  | x :: xs => .ok (xs.foldl max x)

/-! ### Feature Encoder: scikit-learn `TfidfVectorizer(max_features=1000, ngram_range=(1, 2))`
as constructed in `src/train.py` line 20. -/

/-- A regex word character, per the default token pattern `(?u)\b\w\w+\b`
(ASCII model). -/
def isWordChar (c : Char) : Bool :=
  c.isAlphanum || c == '_'

/-- Split a character list into maximal runs of word characters. -/
def wordRunsAux : List Char → List Char → List (List Char)
  | [], cur => if cur.isEmpty then [] else [cur.reverse]
  | c :: cs, cur =>
    if isWordChar c then wordRunsAux cs (c :: cur)
    else if cur.isEmpty then wordRunsAux cs cur
    else cur.reverse :: wordRunsAux cs []

/-- scikit-learn's default tokenizer: token pattern `(?u)\b\w\w+\b`, i.e.
maximal word-character runs of length at least two. -/
def sklearnTokenize (s : String) : List String :=
  ((wordRunsAux s.toList []).filter (fun t => 2 ≤ t.length)).map (fun t => String.mk t)

/-- Join tokens with single spaces (Python `" ".join`). -/
def joinSpace : List String → String
  | [] => ""
  | [t] => t
  | t :: ts => t ++ " " ++ joinSpace ts

/-- Word n-grams of a token list, joined by single spaces. -/
def ngramsOf (tokens : List String) (n : Nat) : List String :=
  (List.range (tokens.length + 1 - n)).map
    (fun i => joinSpace ((tokens.drop i).take n))

/-- The terms a document contributes under `ngram_range=(1, 2)`:
lower-case, tokenize, then unigrams followed by bigrams
(scikit-learn `_word_ngrams` order). -/
def docTerms (doc : String) : List String :=
  let toks := sklearnTokenize (pyLower doc)
  ngramsOf toks 1 ++ ngramsOf toks 2

/-- Deduplicate keeping first occurrences (vocabulary discovery order). -/
def dedupFirstAux : List String → List String → List String
  | _, [] => []
  | seen, x :: xs =>
    if x ∈ seen then dedupFirstAux seen xs else x :: dedupFirstAux (x :: seen) xs

/-- Deduplicate keeping first occurrences. -/
def dedupFirst (l : List String) : List String :=
  dedupFirstAux [] l

/-- All term occurrences across a corpus (with multiplicity). -/
def occurrencesOf (docs : List String) : List String :=
  docs.flatMap docTerms

/-- The distinct terms of a corpus. -/
def allTermsOf (docs : List String) : List String :=
  dedupFirst (occurrencesOf docs)

/-- Term frequency: total number of occurrences of a term across the corpus
(scikit-learn's `tfs = X.sum(axis=0)` used by the `max_features` cap). -/
def tfOf (docs : List String) (t : String) : Nat :=
  (occurrencesOf docs).count t

/-- Document frequency: number of documents containing the term. -/
def dfOf (docs : List String) (t : String) : Nat :=
  (docs.filter (fun d => decide (t ∈ docTerms d))).length

/-- Order used to keep the most frequent terms: term frequency,
descending (stable on ties). -/
def byTfDesc (a b : String × Nat) : Prop :=
  b.2 ≤ a.2

instance : DecidableRel byTfDesc :=
  fun a b => inferInstanceAs (Decidable (b.2 ≤ a.2))

instance : IsTotal (String × Nat) byTfDesc :=
  ⟨fun a b => le_total b.2 a.2⟩

instance : IsTrans (String × Nat) byTfDesc :=
  ⟨fun _ _ _ h1 h2 => le_trans h2 h1⟩

/-- `TfidfVectorizer.fit` restricted to the vocabulary it produces, as
configured in `src/train.py`: discover the distinct unigram/bigram terms;
if there are more than `maxFeatures`, keep the top `maxFeatures` ordered by
term frequency across the corpus (scikit-learn `_limit_features`, whose
documented `max_features` semantics is "ordered by term frequency across
the corpus", stable on ties). -/
def keptTerms (maxFeatures : Nat) (docs : List String) : List String :=
  if (allTermsOf docs).length ≤ maxFeatures then allTermsOf docs
  else ((List.insertionSort byTfDesc
          ((allTermsOf docs).map (fun t => (t, tfOf docs t)))).take
        maxFeatures).map Prod.fst

/-- The fitted vocabulary: the kept terms in alphabetical order
(scikit-learn `_sort_features`). -/
def fitVocab (maxFeatures : Nat) (docs : List String) : List String :=
  List.insertionSort alphaLe (keptTerms maxFeatures docs)

/-- The vectorizer exactly as constructed in `src/train.py` line 20:
`TfidfVectorizer(max_features=1000, ngram_range=(1, 2))`. -/
def trainVectorizerVocab (docs : List String) : List String :=
  fitVocab 1000 docs

/-- `TfidfVectorizer.transform` on one text, given the fitted vocabulary and
an abstract idf weight per term (the idf logarithm is transcendental; the
claims depend only on the count structure).  The final l2 normalisation is a
positive scalar per row (and leaves zero rows zero), so it is omitted: no
claim depends on it. -/
def transform (vocab : List String) (idf : String → ℚ) (text : String) : List ℚ :=
  let terms := docTerms text
  vocab.map (fun t => ((terms.count t : ℚ)) * idf t)

/-! ### Label Codec: scikit-learn `LabelEncoder` -/

/-- `LabelEncoder.fit`: classes are the sorted distinct labels
(`numpy.unique`). -/
def leFit (tags : List String) : List String :=
  List.insertionSort alphaLe (tags.dedup)

/-- `LabelEncoder.transform` on one tag: its index among the classes;
raises on an unseen label. -/
def leEncode (classes : List String) (t : String) : Option Nat :=
  if t ∈ classes then some (List.indexOf t classes) else none

/-- `LabelEncoder.inverse_transform` on one code: the class at that index;
raises when out of range. -/
def leDecode (classes : List String) (k : Nat) : Option String :=
  classes.get? k

/-- `inverse_transform` as used on the serving path (fallible). -/
def leInverseE (classes : List String) (k : Nat) : Except String String :=
  match classes.get? k with
  | some t => .ok t
  | none => .error "y contains previously unseen labels"

/-! ### Classifier: scikit-learn `LogisticRegression` -/

/-- A fitted logistic-regression model: one coefficient row and one intercept
per class, plus the `predict_proba` map kept abstract (soft-max of the
decision scores; the exponential is transcendental, and no claim depends on
its numeric values). -/
structure Classifier where
  coef : List (List ℚ)
  intercept : List ℚ
  probaFn : List ℚ → List ℚ

/-- Dot product over `ℚ`. -/
def dotQ (a b : List ℚ) : ℚ :=
  (List.zipWith (fun p q => p * q) a b).sum

/-- `decision_function`: per-class linear scores `coef · x + intercept`. -/
def decisionScores (c : Classifier) (x : List ℚ) : List ℚ :=
  List.zipWith (fun w b => dotQ x w + b) c.coef c.intercept

/-- `LogisticRegression.predict` on one row: argmax of the decision scores
(fallible, mirroring numpy's error on an empty score vector). -/
def predictE (c : Classifier) (x : List ℚ) : Except String Nat :=
  npArgmax (decisionScores c x)

/-- Total version of `predict` used when scoring the held-out set. -/
def predictIdx (c : Classifier) (x : List ℚ) : Nat :=
  match predictE c x with
  | .ok k => k
  | .error _ => 0

/-! ### Corpus and data preparation (`src/train.py`, `SimpleIntentClassifier.prepare_data`) -/

/-- One record of `intents.json`: tag, example patterns, candidate responses. -/
structure Intent where
  tag : String
  patterns : List String
  responses : List String

/-- `prepare_data` (`src/train.py` lines 28-40): walk the intents in order;
for each pattern append its lower-cased text to `patterns` and the owning
intent's tag to `tags`. -/
def prepareData (intents : List Intent) : List String × List String :=
  (intents.flatMap (fun it => it.patterns.map pyLower),
   intents.flatMap (fun it => it.patterns.map (fun _ => it.tag)))

/-! ### Train/test split and accuracy (`sklearn.model_selection.train_test_split`,
`sklearn.metrics.accuracy_score`) -/

/-- A linear congruential step, standing in for the pseudo-random stream that
`train_test_split` derives from its `random_state`. -/
def lcgStep (s : Nat) : Nat :=
  (s * 1103515245 + 12345) % 2147483648

/-- A seed-determined permutation of a list (Fisher-Yates style selection),
standing in for the opaque seeded shuffle inside `train_test_split`: the
exact permutation is irrelevant to every claim, only that it is a
permutation determined entirely by the seed. -/
def seededShuffle {α : Type} : Nat → List α → List α
  | _, [] => []
  | s, x :: xs =>
    let l := x :: xs
    let i := s % l.length
    l.getD i x :: seededShuffle (lcgStep s) (l.eraseIdx i)
termination_by _ l => l.length
decreasing_by
  simp only [List.length_eraseIdx]
  split
  · omega
  · rename_i hc
    exact absurd (Nat.mod_lt _ (by simp)) hc

/-- `train_test_split(X, y, test_size, random_state)`: when `random_state` is
given it overrides the ambient random source; the shuffled samples are split
with `⌈test_size * n⌉` held out (scikit-learn's ceiling rule for a
fractional `test_size`).  Returns `(train, test)`. -/
def trainTestSplit {α : Type} (ambientSeed : Nat) (randomState : Option Nat)
    (testSize : ℚ) (samples : List α) : List α × List α :=
  let seed := randomState.getD ambientSeed
  let nTest := Nat.ceil (testSize * (samples.length : ℚ))
  let shuffled := seededShuffle seed samples
  (shuffled.drop nTest, shuffled.take nTest)

/-- `accuracy_score`: fraction of positions where prediction equals truth. -/
def accuracyScore (yTrue yPred : List Nat) : ℚ :=
  (((yTrue.zip yPred).countP (fun p => p.1 == p.2) : ℚ)) / ((yTrue.length : ℚ))

/-- The three artifact paths written by `save_model`
(`src/train.py` lines 79-99). -/
def saveModelFiles : List String :=
  ["models/tfidf_vectorizer.pkl", "models/label_encoder.pkl",
   "models/intent_classifier.joblib"]

/-- Result of one training run: the fitted bundle, the held-out accuracy,
and the artifacts persisted by `save_model`. -/
structure TrainResult where
  vocab : List String
  labelClasses : List String
  classifier : Classifier
  accuracy : ℚ
  savedFiles : List String

/-- `SimpleIntentClassifier.train` (`src/train.py` lines 42-77): prepare the
data, fit the vectorizer and label encoder, split 80/20 with
`random_state=42`, fit the classifier (the numeric optimisation of
`LogisticRegression(max_iter=1000, random_state=42)` is an abstract
deterministic function `fitLR` of the training samples, and the idf weights
an abstract `idf`), score the held-out set, then unconditionally
`save_model`.  `ambientSeed` is the process-level random state a run happens
to start with; the source never consults it because every seeded call pins
`random_state=42`. -/
def trainRun (fitLR : List ((List ℚ) × Nat) → Classifier) (idf : String → ℚ)
    (ambientSeed : Nat) (intents : List Intent) : TrainResult :=
  let patterns := (prepareData intents).1
  let tags := (prepareData intents).2
  let vocab := trainVectorizerVocab patterns
  let X := patterns.map (transform vocab idf)
  let classes := leFit tags
  let y := tags.map (fun t => List.indexOf t classes)
  let split := trainTestSplit ambientSeed (some 42) (1 / 5) (X.zip y)
  let c := fitLR split.1
  let yPred := (split.2.map Prod.fst).map (predictIdx c)
  let acc := accuracyScore (split.2.map Prod.snd) yPred
  { vocab := vocab, labelClasses := classes, classifier := c,
    accuracy := acc, savedFiles := saveModelFiles }

/-- `SimpleIntentClassifier.predict` (`src/train.py` lines 101-113):
lower-case, transform, `classifier.predict`, `max(predict_proba)`,
`inverse_transform`. -/
def trainSidePredict (vocab : List String) (idf : String → ℚ)
    (classes : List String) (c : Classifier) (text : String) :
    Except String (String × ℚ) := do
  let X := transform vocab idf (pyLower text)
  let prediction ← predictE c X
  let probability ← npMax (c.probaFn X)
  let intent ← leInverseE classes prediction
  return (intent, probability)

/-! ### Serving path (`src/app.py`, `SimpleDekutChatbot`) -/

/-- The loaded serving bundle: fitted vectorizer, label encoder, classifier,
and the tag → responses table built from `intents.json`
(`src/app.py` lines 14-44). -/
structure Chatbot where
  vocab : List String
  idf : String → ℚ
  labelClasses : List String
  classifier : Classifier
  tagResponses : List (String × List String)

/-- The prediction steps inside `get_response` (`src/app.py` lines 51-63):
lower-case, transform, `classifier.predict`, `np.max(predict_proba)`,
`inverse_transform`. -/
def appPredictSteps (vocab : List String) (idf : String → ℚ)
    (classes : List String) (c : Classifier) (text : String) :
    Except String (String × ℚ) := do
  let X := transform vocab idf (pyLower text)
  let prediction ← predictE c X
  let probability ← npMax (c.probaFn X)
  let intent ← leInverseE classes prediction
  return (intent, probability)

/-- The fallback messages of `get_response` (`src/app.py` lines 69-74). -/
def fallbackMessages : List String :=
  ["I\x27m not sure about that. Please visit https://dkut.ac.ke",
   "Could you rephrase your question?",
   "I\x27m still learning about that topic.",
   "Please contact admissions@dkut.ac.ke for more information."]

/-- The body of the `try:` block of `get_response` (`src/app.py` lines
51-75): run the prediction steps, then gate on
`probability > 0.5 and intent in self.tag_responses`, choosing randomly
from the intent's responses or from the fallbacks.  Any error escapes as
`.error`, to be caught by the `except` clause. -/
def tryGetResponse (bot : Chatbot) (rng : Nat) (userInput : String) :
    Except String String := do
  let pr ← appPredictSteps bot.vocab bot.idf bot.labelClasses bot.classifier
    userInput
  let intent := pr.1
  let probability := pr.2
  if probability > 1 / 2 ∧ (bot.tagResponses.lookup intent).isSome then
    randomChoiceE rng ((bot.tagResponses.lookup intent).getD [])
  else
    randomChoiceE rng fallbackMessages

/-- `get_response` (`src/app.py` lines 46-79): blank input short-circuits to
a prompt; otherwise run the `try:` block, and recover from any error with
the generic trouble message. -/
def getResponse (bot : Chatbot) (rng : Nat) (userInput : String) : String :=
  if pyStrip userInput = "" then "Please type a question."
  else
    match tryGetResponse bot rng userInput with
    | .ok r => r
    | .error _ => "I\x27m having trouble understanding. Please try again."

/-- The `/chat` handler (`src/app.py` lines 88-96): strip the message, answer
blank input with a fixed prompt without invoking the chatbot, otherwise
delegate to `get_response` on the stripped message. -/
def chatEndpoint (bot : Chatbot) (rng : Nat) (message : String) : String :=
  let userMessage := pyStrip message
  if userMessage = "" then "Please enter a message."
  else getResponse bot rng userMessage

/-! ### Concrete instances used to exercise the embedding -/

/-- A trivial abstract idf weighting used on concrete instances. -/
def demoIdf : String → ℚ := fun _ => 1

/-- A bundle whose classifier reports confidence `2/5` for the one intent
`greeting`, and whose `greeting` responses happen to contain one of the
fixed fallback messages. -/
def botC1 : Chatbot :=
  { vocab := []
    idf := demoIdf
    labelClasses := ["greeting"]
    classifier := { coef := [[]], intercept := [0], probaFn := fun _ => [2 / 5] }
    tagResponses := [("greeting", ["Could you rephrase your question?"])] }

/-- A bundle whose classifier reports confidence `3/4` for the one intent
`greeting`. -/
def botPos : Chatbot :=
  { vocab := ["hello"]
    idf := demoIdf
    labelClasses := ["greeting"]
    classifier := { coef := [[2]], intercept := [1], probaFn := fun _ => [3 / 4] }
    tagResponses := [("greeting", ["Hello!", "Hi there!"])] }

/-- A bundle whose classifier has no classes at all, so `predict` raises
(`numpy` argmax of an empty score vector). -/
def botErr : Chatbot :=
  { vocab := ["hello"]
    idf := demoIdf
    labelClasses := []
    classifier := { coef := [], intercept := [], probaFn := fun _ => [] }
    tagResponses := [] }

/-- A classifier used to exercise the all-zero-vector edge case. -/
def clsW : Classifier :=
  { coef := [[2]], intercept := [1], probaFn := fun _ => [9 / 10] }

/-- The `i`-th of a family of pairwise distinct single-word documents:
`i + 2` copies of the letter `a`. -/
def tokA (i : Nat) : String :=
  String.mk (List.replicate (i + 2) 'a')

/-- 1001 pairwise distinct single-token documents. -/
def tsCE : List String :=
  (List.range 1001).map tokA

/-- A corpus with 1003 distinct terms: each `tokA i` occurs once in each of
two documents (document frequency 2, term frequency 2), while `uu` occurs
three times in a single document (document frequency 1, term frequency 3).
Since 1003 exceeds the `max_features=1000` cap, the fitted vocabulary keeps
the top 1000 terms by term frequency: `uu` is kept and three
document-frequency-2 terms are dropped. -/
def corpusCE : List String :=
  tsCE ++ tsCE ++ ["uu uu uu"]

/-! ### Helper lemmas -/

theorem getD_mem_of_mem {α : Type} {l : List α} {d : α} (i : Nat) (hd : d ∈ l) :
    l.getD i d ∈ l := by
  rw [List.getD_eq_getElem?_getD]
  cases h : l[i]? with
  | none => simpa using hd
  | some a =>
    have : a ∈ l := List.getElem?_mem h
    simpa using this

theorem mem_of_randomChoiceE {rng : Nat} {xs : List String} {r : String}
    (h : randomChoiceE rng xs = .ok r) : r ∈ xs := by
  cases xs with
  | nil => simp [randomChoiceE] at h
  | cons x xs' =>
    simp only [randomChoiceE, Except.ok.injEq] at h
    subst h
    exact getD_mem_of_mem _ (List.mem_cons_self x xs')

theorem getD_eq_getD_of_lt {α : Type} (l : List α) (i : Nat) (h : i < l.length)
    (d d' : α) : l.getD i d = l.getD i d' := by
  rw [List.getD_eq_getElem?_getD, List.getD_eq_getElem?_getD,
    List.getElem?_eq_getElem h]
  rfl

theorem lookup_mem {l : List (String × List String)} {k : String}
    {v : List String} (h : l.lookup k = some v) : (k, v) ∈ l := by
  induction l with
  | nil => simp [List.lookup] at h
  | cons p t ih =>
    rcases p with ⟨a, b⟩
    rw [List.lookup_cons] at h
    rcases hb : (k == a) with _ | _
    · simp only [hb] at h
      exact List.mem_cons_of_mem _ (ih h)
    · simp only [hb, Option.some.injEq] at h
      subst h
      have : k = a := eq_of_beq hb
      subst this
      exact List.mem_cons_self _ _

theorem get?_indexOf {l : List String} {t : String} (h : t ∈ l) :
    l.get? (List.indexOf t l) = some t := by
  have hlt : List.indexOf t l < l.length := List.indexOf_lt_length.mpr h
  rw [List.get?_eq_getElem?, List.getElem?_eq_getElem hlt]
  exact congrArg some (List.getElem_indexOf hlt)

/-! ### C9: the training-side and serving-side prediction paths agree -/

/-- C9: `SimpleIntentClassifier.predict` (src/train.py lines 101-113) and the
prediction steps inside `SimpleDekutChatbot.get_response` (src/app.py lines
51-63) compute the same (intent, confidence) pair for every query and every
shared fitted vectorizer, label encoder and classifier. -/
theorem c9_predict_paths_equal (vocab : List String) (idf : String → ℚ)
    (classes : List String) (c : Classifier) (text : String) :
    trainSidePredict vocab idf classes c text
      = appPredictSteps vocab idf classes c text :=
  rfl

/-! ### C3: blank input short-circuits to a fixed prompt -/

/-- C3: an empty or all-whitespace query is answered with the fixed prompt
sentinel, without consulting the encoder, classifier or response table (the
result is the same for every loaded bundle and every random draw), and the
`/chat` endpoint likewise short-circuits blank messages. -/
theorem c3_blank_prompt (bot bot' : Chatbot) (rng rng' : Nat) (input : String)
    (h : pyStrip input = "") :
    getResponse bot rng input = "Please type a question."
    ∧ getResponse bot rng input = getResponse bot' rng' input
    ∧ chatEndpoint bot rng input = "Please enter a message." := by
  refine ⟨?_, ?_, ?_⟩ <;> simp [getResponse, chatEndpoint, h]

/-- Witness for C3 at the concrete whitespace-only input `" \t "`. -/
theorem c3_blank_prompt_witness :
    pyStrip (" \t ") = ""
    ∧ getResponse botPos 0 (" \t ") = "Please type a question." :=
  ⟨by decide, (c3_blank_prompt botPos botErr 0 1 (" \t ") (by decide)).1⟩

/-! ### C4: label codec round-trip -/

/-- C4: for every tag in the sequence a `LabelEncoder` was fitted on,
decoding the code obtained by encoding that tag yields the tag back. -/
theorem c4_label_roundtrip (tags : List String) (t : String) (h : t ∈ tags) :
    (leEncode (leFit tags) t).bind (leDecode (leFit tags)) = some t := by
  have hmem : t ∈ leFit tags := by
    unfold leFit
    exact ((List.perm_insertionSort _ _).mem_iff).mpr (List.mem_dedup.mpr h)
  unfold leEncode leDecode
  rw [if_pos hmem]
  exact get?_indexOf hmem

/-- Witness for C4 on the concrete fitted tag list `["b", "a", "b"]`. -/
theorem c4_label_roundtrip_witness :
    ("a" ∈ ["b", "a", "b"])
    ∧ (leEncode (leFit ["b", "a", "b"]) ("a")).bind
        (leDecode (leFit ["b", "a", "b"])) = some ("a") :=
  ⟨by decide, c4_label_roundtrip ["b", "a", "b"] ("a") (by decide)⟩

/-! ### C6: persistence is unconditional -/

/-- C6: `train` persists the fitted bundle unconditionally — for every
corpus, every ambient random state and every behaviour of the numeric
optimiser (hence every achieved held-out accuracy), the saved artifacts are
exactly the three model files; no accuracy threshold gates saving. -/
theorem c6_always_saved (fitLR : List ((List ℚ) × Nat) → Classifier)
    (idf : String → ℚ) (ambientSeed : Nat) (intents : List Intent) :
    (trainRun fitLR idf ambientSeed intents).savedFiles = saveModelFiles
    ∧ saveModelFiles
      = ["models/tfidf_vectorizer.pkl", "models/label_encoder.pkl",
         "models/intent_classifier.joblib"] :=
  ⟨rfl, rfl⟩

/-! ### C10: data preparation preserves pattern-to-tag pairing -/

/-- C10: `prepare_data` returns two lists of equal length whose positionwise
pairing is exactly the corpus-order sequence of (lower-cased pattern, owning
intent's tag) pairs: the i-th tag is the tag of the intent that contributed
the i-th pattern, patterns are lower-cased, tags are unchanged. -/
theorem c10_prepare_data_pairing (intents : List Intent) :
    ((prepareData intents).1).length = ((prepareData intents).2).length
    ∧ ((prepareData intents).1).zip ((prepareData intents).2)
      = intents.flatMap
          (fun it => it.patterns.map (fun p => (pyLower p, it.tag))) := by
  constructor
  · simp only [prepareData, List.length_flatMap]
    congr 1
    refine List.map_congr_left (fun it _ => ?_)
    simp
  · induction intents with
    | nil => rfl
    | cons it rest ih =>
      simp only [prepareData, List.flatMap_cons] at ih ⊢
      rw [List.zip_append (by simp), ih, List.zip_map']

/-! ### C2: the user-facing path never raises -/

/-- C2: `get_response` is total: every input string is answered with some
response text.  Any error escaping the prediction steps is recovered by the
`except` clause as the generic trouble message, and every possible return
value is one of: the blank-input prompt, the trouble message, a fallback
message, or a response registered for some intent. -/
theorem c2_degrades_to_text (bot : Chatbot) (rng : Nat) (input : String) :
    (pyStrip input ≠ "" → ∀ e : String,
        tryGetResponse bot rng input = .error e →
        getResponse bot rng input
          = "I\x27m having trouble understanding. Please try again.")
    ∧ (getResponse bot rng input = "Please type a question."
       ∨ getResponse bot rng input
           = "I\x27m having trouble understanding. Please try again."
       ∨ getResponse bot rng input ∈ fallbackMessages
       ∨ ∃ tag rs, (tag, rs) ∈ bot.tagResponses
           ∧ getResponse bot rng input ∈ rs) := by
  by_cases hb : pyStrip input = ""
  · refine ⟨fun hne => absurd hb hne, ?_⟩
    left
    simp [getResponse, hb]
  · cases htry : tryGetResponse bot rng input with
    | error e =>
      refine ⟨fun _ _ _ => ?_, ?_⟩
      · simp [getResponse, hb, htry]
      · right; left; simp [getResponse, hb, htry]
    | ok r =>
      have hres : getResponse bot rng input = r := by
        simp [getResponse, hb, htry]
      refine ⟨fun _ e he => ?_, ?_⟩
      · exact absurd he (by simp)
      · unfold tryGetResponse at htry
        cases happ : appPredictSteps bot.vocab bot.idf bot.labelClasses
            bot.classifier input with
        | error e2 =>
          rw [happ] at htry
          exact absurd htry (by simp [Bind.bind, Except.bind])
        | ok pr =>
          rw [happ] at htry
          simp only [Bind.bind, Except.bind] at htry
          split at htry
          · rename_i hcond
            obtain ⟨rs, hrs⟩ := Option.isSome_iff_exists.mp hcond.2
            rw [hrs] at htry
            simp only [Option.getD_some] at htry
            right; right; right
            exact ⟨pr.1, rs, lookup_mem hrs, hres ▸ mem_of_randomChoiceE htry⟩
          · right; right; left
            exact hres ▸ mem_of_randomChoiceE htry

/-- Witness for C2: a bundle whose classifier raises inside the prediction
steps is answered with the generic trouble message. -/
theorem c2_degrades_to_text_witness :
    pyStrip ("hi") ≠ ""
    ∧ getResponse botErr 0 ("hi")
        = "I\x27m having trouble understanding. Please try again." :=
  ⟨by decide, (c2_degrades_to_text botErr 0 ("hi")).1 (by decide)
      ("attempt to get argmax of an empty sequence")
      (by with_unfolding_all decide)⟩

/-! ### C1: confidence-gated response selection -/

/-- C1 counterexample: the claim "for top probability ≤ 0.5 the returned
response is never a member of any intent's response list" fails when a
fallback message also occurs in an intent's response list.  At this concrete
bundle the top predicted probability is 2/5 ≤ 1/2, and the returned
fallback message is a member of the `greeting` intent's response list. -/
theorem c1_counterexample :
    appPredictSteps botC1.vocab botC1.idf botC1.labelClasses botC1.classifier
        ("hello") = .ok ("greeting", 2 / 5)
    ∧ ((2 : ℚ) / 5 ≤ 1 / 2)
    ∧ getResponse botC1 1 ("hello") = "Could you rephrase your question?"
    ∧ ("greeting", ["Could you rephrase your question?"]) ∈ botC1.tagResponses
    ∧ "Could you rephrase your question?"
        ∈ ["Could you rephrase your question?"] :=
  ⟨by with_unfolding_all decide, by with_unfolding_all decide,
   by with_unfolding_all decide, by decide, by decide⟩

/-- C1 (amended): when the top probability strictly exceeds 1/2 and the
predicted intent has a nonempty registered response list, the answer is the
uniformly drawn element `rs[rng % len rs]` of that list; when the top
probability is ≤ 1/2 the answer is drawn from the fixed fallback list, and —
provided no fallback message occurs in any intent's response list — it is
not a member of any intent's response list. -/
theorem c1_confidence_gating (bot : Chatbot) (rng : Nat) (input : String)
    (intent : String) (prob : ℚ)
    (hne : pyStrip input ≠ "")
    (hp : appPredictSteps bot.vocab bot.idf bot.labelClasses bot.classifier
        input = .ok (intent, prob)) :
    (∀ rs : List String, prob > 1 / 2 →
        bot.tagResponses.lookup intent = some rs → rs ≠ [] →
        getResponse bot rng input = rs.getD (rng % rs.length) ""
        ∧ getResponse bot rng input ∈ rs)
    ∧ (prob ≤ 1 / 2 →
        getResponse bot rng input ∈ fallbackMessages
        ∧ ∀ tag rs, (tag, rs) ∈ bot.tagResponses →
            (∀ f ∈ fallbackMessages, f ∉ rs) →
            getResponse bot rng input ∉ rs) := by
  have hgr : ∀ res : String, tryGetResponse bot rng input = .ok res →
      getResponse bot rng input = res := by
    intro res h
    simp [getResponse, hne, h]
  have htry : tryGetResponse bot rng input
      = if prob > 1 / 2 ∧ (bot.tagResponses.lookup intent).isSome then
          randomChoiceE rng ((bot.tagResponses.lookup intent).getD [])
        else randomChoiceE rng fallbackMessages := by
    unfold tryGetResponse
    rw [hp]
    rfl
  constructor
  · intro rs hgt hrs hne'
    have hcond : prob > 1 / 2 ∧ (bot.tagResponses.lookup intent).isSome :=
      ⟨hgt, by simp [hrs]⟩
    cases rs with
    | nil => exact absurd rfl hne'
    | cons x xs =>
      have hok : tryGetResponse bot rng input
          = .ok ((x :: xs).getD (rng % (x :: xs).length) x) := by
        rw [htry, if_pos hcond, hrs]
        rfl
      have hres := hgr _ hok
      refine ⟨?_, ?_⟩
      · rw [hres]
        exact getD_eq_getD_of_lt _ _ (Nat.mod_lt _ (by simp)) _ _
      · rw [hres]
        exact getD_mem_of_mem _ (List.mem_cons_self _ _)
  · intro hle
    have hcond : ¬ (prob > 1 / 2 ∧ (bot.tagResponses.lookup intent).isSome) :=
      fun hc => absurd hc.1 (not_lt.mpr hle)
    have hfb : tryGetResponse bot rng input = randomChoiceE rng fallbackMessages := by
      rw [htry, if_neg hcond]
    cases hch : randomChoiceE rng fallbackMessages with
    | error e =>
      exact absurd hch (by simp [fallbackMessages, randomChoiceE])
    | ok r =>
      have hres := hgr r (hfb.trans hch)
      have hmem := mem_of_randomChoiceE hch
      exact ⟨hres ▸ hmem, fun tag rs _ hdisj => hres ▸ hdisj r hmem⟩

/-- Witness for C1 on a confident bundle: probability 3/4 > 1/2, and the
returned response is a member of the `greeting` intent's response list. -/
theorem c1_confidence_gating_witness :
    pyStrip ("hello") ≠ ""
    ∧ getResponse botPos 0 ("hello") ∈ ["Hello!", "Hi there!"] := by
  refine ⟨by decide, ?_⟩
  exact ((c1_confidence_gating botPos 0 ("hello") ("greeting") (3 / 4)
      (by decide) (by with_unfolding_all decide)).1 ["Hello!", "Hi there!"]
      (by norm_num) (by decide) (by decide)).2

/-! ### C5: fixed 80/20 split with a fixed seed -/

theorem length_seededShuffle_aux {α : Type} :
    ∀ (n s : Nat) (l : List α), l.length ≤ n →
      (seededShuffle s l).length = l.length := by
  intro n
  induction n with
  | zero =>
    intro s l h
    cases l with
    | nil => rw [seededShuffle]
    | cons x xs => simp at h
  | succ m ih =>
    intro s l h
    cases l with
    | nil => rw [seededShuffle]
    | cons x xs =>
      have hlt : s % (xs.length + 1) < xs.length + 1 := Nat.mod_lt _ (by omega)
      have hlen : ((x :: xs).eraseIdx (s % (xs.length + 1))).length = xs.length := by
        rw [List.length_eraseIdx]
        simp only [List.length_cons]
        rw [if_pos hlt]
        omega
      rw [seededShuffle]
      simp only [List.length_cons] at h ⊢
      rw [ih (lcgStep s) _ (by rw [hlen]; omega), hlen]

theorem length_seededShuffle {α : Type} (s : Nat) (l : List α) :
    (seededShuffle s l).length = l.length :=
  length_seededShuffle_aux l.length s l le_rfl

theorem ceil_fifth (n : Nat) : Nat.ceil ((1 / 5 : ℚ) * (n : ℚ)) = (n + 4) / 5 := by
  rcases Nat.eq_zero_or_pos n with h0 | hpos
  · subst h0
    simp
  · have hm : (n + 4) / 5 ≠ 0 := by omega
    rw [Nat.ceil_eq_iff hm]
    constructor
    · rw [one_div, inv_mul_eq_div, lt_div_iff₀ (by norm_num : (0 : ℚ) < 5)]
      have hc : (((n + 4) / 5 - 1 : ℕ) : ℚ) * 5 = ((((n + 4) / 5 - 1) * 5 : ℕ) : ℚ) := by
        push_cast
        ring
      rw [hc]
      exact_mod_cast (by omega : ((n + 4) / 5 - 1) * 5 < n)
    · rw [one_div, inv_mul_eq_div, div_le_iff₀ (by norm_num : (0 : ℚ) < 5)]
      have hc : (((n + 4) / 5 : ℕ) : ℚ) * 5 = ((((n + 4) / 5) * 5 : ℕ) : ℚ) := by
        push_cast
        ring
      rw [hc]
      exact_mod_cast (by omega : n ≤ ((n + 4) / 5) * 5)

/-- C5: the trainer's split is reproducible and 80/20.  Because the source
pins `random_state=42` (and `test_size=0.2`), the entire training result —
in particular the held-out accuracy — is independent of the ambient random
state a run starts with: two runs on identical input are equal.  The
held-out set receives `⌈n/5⌉ = (n+4)/5` samples and the training set the
remaining `n - (n+4)/5`. -/
theorem c5_reproducible_training (fitLR : List ((List ℚ) × Nat) → Classifier)
    (idf : String → ℚ) (intents : List Intent) (r1 r2 : Nat)
    (samples : List ((List ℚ) × Nat)) :
    trainRun fitLR idf r1 intents = trainRun fitLR idf r2 intents
    ∧ ((trainTestSplit r1 (some 42) (1 / 5) samples).2).length
        = (samples.length + 4) / 5
    ∧ ((trainTestSplit r1 (some 42) (1 / 5) samples).1).length
        = samples.length - (samples.length + 4) / 5 := by
  refine ⟨rfl, ?_, ?_⟩
  · simp only [trainTestSplit]
    rw [List.length_take, length_seededShuffle, ceil_fifth]
    rw [min_eq_left (by omega)]
  · simp only [trainTestSplit]
    rw [List.length_drop, length_seededShuffle, ceil_fifth]

/-! ### C8: all-out-of-vocabulary queries encode to zero and still predict -/

theorem transform_oov (vocab : List String) (idf : String → ℚ) (text : String)
    (h : ∀ t ∈ docTerms text, t ∉ vocab) :
    transform vocab idf text = List.replicate vocab.length 0 := by
  unfold transform
  rw [List.eq_replicate_iff]
  refine ⟨by simp, ?_⟩
  intro b hb
  obtain ⟨t, ht, rfl⟩ := List.mem_map.mp hb
  have hz : (docTerms text).count t = 0 :=
    List.count_eq_zero.mpr (fun hmem => h t hmem ht)
  rw [hz]
  simp

theorem dot_replicate_zero (n : Nat) (w : List ℚ) :
    dotQ (List.replicate n 0) w = 0 := by
  induction w generalizing n with
  | nil => cases n <;> simp [dotQ]
  | cons b bs ih =>
    cases n with
    | zero => simp [dotQ]
    | succ m =>
      rw [List.replicate_succ]
      simpa [dotQ] using ih m

theorem scores_on_zero_aux (n : Nat) :
    ∀ (ws : List (List ℚ)) (bs : List ℚ), ws.length = bs.length →
      List.zipWith (fun w b => dotQ (List.replicate n 0) w + b) ws bs = bs := by
  intro ws
  induction ws with
  | nil =>
    intro bs h
    cases bs with
    | nil => rfl
    | cons b bs' => simp at h
  | cons w ws' ih =>
    intro bs h
    cases bs with
    | nil => simp at h
    | cons b bs' =>
      rw [List.zipWith_cons_cons, dot_replicate_zero, zero_add,
        ih bs' (by simpa using h)]

theorem scores_on_zero (c : Classifier) (n : Nat)
    (h : c.coef.length = c.intercept.length) :
    decisionScores c (List.replicate n 0) = c.intercept := by
  unfold decisionScores
  exact scores_on_zero_aux n c.coef c.intercept h

/-- C8: a non-empty query all of whose terms are out of vocabulary encodes
to the all-zero feature vector, and — for any consistently fitted bundle —
the prediction steps still succeed, predicting the class whose intercept
(bias) is maximal, with some confidence value: the zero vector is a valid
input, not an error. -/
theorem c8_oov_zero_vector (vocab : List String) (idf : String → ℚ)
    (classes : List String) (c : Classifier) (input : String) (k : Nat)
    (hlen : c.coef.length = c.intercept.length)
    (hoov : ∀ t ∈ docTerms (pyLower input), t ∉ vocab)
    (hk : npArgmax c.intercept = .ok k)
    (hkc : k < classes.length)
    (hpb : c.probaFn (List.replicate vocab.length 0) ≠ []) :
    transform vocab idf (pyLower input) = List.replicate vocab.length 0
    ∧ ∃ conf : ℚ, appPredictSteps vocab idf classes c input
        = .ok (classes.getD k "", conf) := by
  have hT := transform_oov vocab idf (pyLower input) hoov
  refine ⟨hT, ?_⟩
  obtain ⟨y, ys, hpb'⟩ : ∃ y ys, c.probaFn (List.replicate vocab.length 0) = y :: ys := by
    cases hpf : c.probaFn (List.replicate vocab.length 0) with
    | nil => exact absurd hpf hpb
    | cons y ys => exact ⟨y, ys, rfl⟩
  refine ⟨ys.foldl max y, ?_⟩
  have hpE : predictE c (List.replicate vocab.length 0) = .ok k := by
    unfold predictE
    rw [scores_on_zero c _ hlen]
    exact hk
  have hinv : leInverseE classes k = .ok (classes.getD k "") := by
    unfold leInverseE
    rw [List.get?_eq_getElem?, List.getElem?_eq_getElem hkc]
    rw [List.getD_eq_getElem?_getD, List.getElem?_eq_getElem hkc]
    rfl
  dsimp only [appPredictSteps]
  rw [hT, hpE]
  simp only [Bind.bind, Except.bind]
  rw [hpb']
  simp only [npMax]
  rw [hinv]
  rfl

/-- Witness for C8 at a concrete bundle and the out-of-vocabulary query
`"zzz yyy"`. -/
theorem c8_oov_zero_vector_witness :
    transform ["hello"] demoIdf (pyLower ("zzz yyy")) = List.replicate 1 0
    ∧ ∃ conf : ℚ, appPredictSteps ["hello"] demoIdf ["greeting"] clsW
        ("zzz yyy") = .ok ((["greeting"]).getD 0 "", conf) :=
  c8_oov_zero_vector ["hello"] demoIdf ["greeting"] clsW ("zzz yyy") 0
    (by decide) (by decide) (by decide) (by decide) (by decide)

/-! ### C7: the fitted vocabulary -/

theorem mem_of_mem_dedupFirstAux :
    ∀ (l seen : List String) (x : String), x ∈ dedupFirstAux seen l → x ∈ l := by
  intro l
  induction l with
  | nil =>
    intro seen x h
    simp [dedupFirstAux] at h
  | cons y ys ih =>
    intro seen x h
    by_cases hy : y ∈ seen
    · simp only [dedupFirstAux, if_pos hy] at h
      exact List.mem_cons_of_mem _ (ih seen x h)
    · simp only [dedupFirstAux, if_neg hy] at h
      rcases List.mem_cons.mp h with rfl | h'
      · exact List.mem_cons_self _ _
      · exact List.mem_cons_of_mem _ (ih _ x h')

theorem keptTerms_subset (maxF : Nat) (docs : List String) :
    ∀ t ∈ keptTerms maxF docs, t ∈ allTermsOf docs := by
  intro t ht
  unfold keptTerms at ht
  split at ht
  · exact ht
  · obtain ⟨p, hp, rfl⟩ := List.mem_map.mp ht
    have hp' := ((List.perm_insertionSort _ _).mem_iff).mp (List.mem_of_mem_take hp)
    obtain ⟨u, hu, rfl⟩ := List.mem_map.mp hp'
    exact hu

theorem pairwise_take_drop {α : Type} {r : α → α → Prop} {l : List α}
    (h : List.Pairwise r l) (n : Nat) :
    ∀ a ∈ l.take n, ∀ b ∈ l.drop n, r a b := by
  have h' : List.Pairwise r (l.take n ++ l.drop n) := by
    rwa [List.take_append_drop]
  exact (List.pairwise_append.mp h').2.2

/-- C7 (amended): for every fit corpus, the fitted vocabulary contains only
unigrams and bigrams of the corpus, is capped at 1000 entries, and is a
top-1000 selection by term frequency: no term outside the vocabulary has a
strictly greater term frequency than a term inside it. -/
theorem c7_vocab_top_terms (docs : List String) :
    (trainVectorizerVocab docs).length ≤ 1000
    ∧ (∀ t ∈ trainVectorizerVocab docs, ∃ d ∈ docs,
        t ∈ ngramsOf (sklearnTokenize (pyLower d)) 1
        ∨ t ∈ ngramsOf (sklearnTokenize (pyLower d)) 2)
    ∧ (∀ t ∈ trainVectorizerVocab docs, ∀ s ∈ allTermsOf docs,
        s ∉ trainVectorizerVocab docs → tfOf docs s ≤ tfOf docs t) := by
  refine ⟨?_, ?_, ?_⟩
  · unfold trainVectorizerVocab fitVocab
    rw [List.length_insertionSort]
    unfold keptTerms
    split
    · assumption
    · rw [List.length_map, List.length_take]
      exact min_le_left _ _
  · intro t ht
    have ht' : t ∈ keptTerms 1000 docs :=
      ((List.perm_insertionSort _ _).mem_iff).mp ht
    have htA : t ∈ allTermsOf docs := keptTerms_subset _ _ t ht'
    have htO : t ∈ occurrencesOf docs := mem_of_mem_dedupFirstAux _ _ t htA
    obtain ⟨d, hd, hdt⟩ := List.mem_flatMap.mp htO
    refine ⟨d, hd, ?_⟩
    simpa [docTerms] using hdt
  · intro t ht s hs hns
    have ht' : t ∈ keptTerms 1000 docs :=
      ((List.perm_insertionSort _ _).mem_iff).mp ht
    have hns' : s ∉ keptTerms 1000 docs :=
      fun hc => hns (((List.perm_insertionSort _ _).mem_iff).mpr hc)
    unfold keptTerms at ht' hns'
    by_cases hle : (allTermsOf docs).length ≤ 1000
    · rw [if_pos hle] at hns'
      exact absurd hs hns'
    · rw [if_neg hle] at ht' hns'
      set pairs := (allTermsOf docs).map (fun u => (u, tfOf docs u)) with hpairs
      set sortedP := List.insertionSort byTfDesc pairs with hsortedP
      obtain ⟨p, hpTake, hp1⟩ := List.mem_map.mp ht'
      have hsPair : (s, tfOf docs s) ∈ sortedP :=
        ((List.perm_insertionSort _ _).mem_iff).mpr
          (List.mem_map.mpr ⟨s, hs, rfl⟩)
      have hsDrop : (s, tfOf docs s) ∈ sortedP.drop 1000 := by
        have hsplit : sortedP.take 1000 ++ sortedP.drop 1000 = sortedP :=
          List.take_append_drop 1000 sortedP
        rcases List.mem_append.mp (hsplit ▸ hsPair) with hIn | hIn
        · exact absurd (List.mem_map.mpr ⟨_, hIn, rfl⟩) hns'
        · exact hIn
      have hsorted : List.Pairwise byTfDesc sortedP :=
        List.sorted_insertionSort byTfDesc pairs
      have hrel := pairwise_take_drop hsorted 1000 p hpTake _ hsDrop
      have hp2 : p.2 = tfOf docs p.1 := by
        have hpMem := ((List.perm_insertionSort _ _).mem_iff).mp
          (List.mem_of_mem_take hpTake)
        obtain ⟨u, _, rfl⟩ := List.mem_map.mp hpMem
        rfl
      have hle' : tfOf docs s ≤ tfOf docs p.1 := hp2 ▸ hrel
      rwa [hp1] at hle'

/-! ### C7 on the concrete corpus `corpusCE` -/

theorem tokA_data (i : Nat) : (tokA i).data = List.replicate (i + 2) 'a' :=
  rfl

theorem tokA_inj {i j : Nat} (h : tokA i = tokA j) : i = j := by
  have hd : (tokA i).data = (tokA j).data := by rw [h]
  rw [tokA_data, tokA_data] at hd
  have h2 : i + 2 = j + 2 := by simpa using congrArg List.length hd
  omega

theorem tokA_ne_of_mem_u {s : String} (hu : 'u' ∈ s.data) (i : Nat) :
    tokA i ≠ s := by
  intro h
  rw [← h, tokA_data] at hu
  exact absurd (List.eq_of_mem_replicate hu) (by decide)

theorem tokA_ne_uu (i : Nat) : tokA i ≠ "uu" :=
  tokA_ne_of_mem_u (by decide) i

theorem tokA_ne_uuuu (i : Nat) : tokA i ≠ "uu uu" :=
  tokA_ne_of_mem_u (by decide) i

theorem pyLower_tokA (i : Nat) : pyLower (tokA i) = tokA i := by
  have ha : Char.toLower 'a' = 'a' := by decide
  simp [pyLower, tokA, List.map_replicate, ha]

theorem wordRunsAux_all_word :
    ∀ (l cur : List Char), (∀ c ∈ l, isWordChar c = true) →
      wordRunsAux l cur
        = if (cur.reverse ++ l).isEmpty then [] else [cur.reverse ++ l] := by
  intro l
  induction l with
  | nil =>
    intro cur _
    cases cur with
    | nil => rfl
    | cons c cs => simp [wordRunsAux]
  | cons c cs ih =>
    intro cur hw
    have hc : isWordChar c = true := hw c (List.mem_cons_self _ _)
    rw [show wordRunsAux (c :: cs) cur
        = if isWordChar c then wordRunsAux cs (c :: cur)
          else if cur.isEmpty then wordRunsAux cs cur
          else cur.reverse :: wordRunsAux cs [] from rfl]
    rw [if_pos hc, ih (c :: cur) (fun d hd => hw d (List.mem_cons_of_mem _ hd))]
    simp [List.reverse_cons, List.append_assoc]

theorem sklearnTokenize_tokA (i : Nat) :
    sklearnTokenize (pyLower (tokA i)) = [tokA i] := by
  rw [pyLower_tokA]
  unfold sklearnTokenize
  have hdata : (tokA i).toList = List.replicate (i + 2) 'a' := rfl
  rw [hdata, wordRunsAux_all_word _ [] (fun c hc => by
    rw [List.eq_of_mem_replicate hc]
    decide)]
  simp only [List.reverse_nil, List.nil_append]
  rw [if_neg (by simp)]
  rw [List.filter_cons, if_pos (by simp [List.length_replicate])]
  rfl

theorem docTerms_tokA (i : Nat) : docTerms (tokA i) = [tokA i] := by
  simp only [docTerms, sklearnTokenize_tokA]
  rfl

theorem flatMap_docTerms_map_tokA (l : List Nat) :
    (l.map tokA).flatMap docTerms = l.map tokA := by
  induction l with
  | nil => rfl
  | cons i rest ih =>
    simp only [List.map_cons, List.flatMap_cons, docTerms_tokA, ih,
      List.singleton_append]

theorem docTerms_uuu :
    docTerms ("uu uu uu") = ["uu", "uu", "uu", "uu uu", "uu uu"] := by
  decide

theorem occurrencesOf_corpusCE :
    occurrencesOf corpusCE
      = tsCE ++ tsCE ++ ["uu", "uu", "uu", "uu uu", "uu uu"] := by
  unfold occurrencesOf corpusCE tsCE
  rw [List.flatMap_append, List.flatMap_append, flatMap_docTerms_map_tokA]
  simp [docTerms_uuu]

theorem tsCE_nodup : tsCE.Nodup :=
  List.Nodup.map (fun _ _ h => tokA_inj h) (List.nodup_range 1001)

theorem uu_not_mem_tsCE : "uu" ∉ tsCE := by
  intro h
  obtain ⟨i, _, hEq⟩ := List.mem_map.mp h
  exact tokA_ne_uu i hEq

theorem uuuu_not_mem_tsCE : "uu uu" ∉ tsCE := by
  intro h
  obtain ⟨i, _, hEq⟩ := List.mem_map.mp h
  exact tokA_ne_uuuu i hEq

theorem dedupFirstAux_nodup_block :
    ∀ (l seen rest : List String), l.Nodup → (∀ x ∈ l, x ∉ seen) →
      dedupFirstAux seen (l ++ rest)
        = l ++ dedupFirstAux (l.reverse ++ seen) rest := by
  intro l
  induction l with
  | nil =>
    intro seen rest _ _
    simp
  | cons x l' ih =>
    intro seen rest hnd hdis
    have hx : x ∉ seen := hdis x (List.mem_cons_self _ _)
    have hnd' := List.nodup_cons.mp hnd
    have hdis' : ∀ y ∈ l', y ∉ (x :: seen) := by
      intro y hy hmem
      rcases List.mem_cons.mp hmem with rfl | hseen
      · exact hnd'.1 hy
      · exact hdis y (List.mem_cons_of_mem _ hy) hseen
    simp only [List.cons_append, dedupFirstAux, if_neg hx, List.append_eq]
    rw [ih (x :: seen) rest hnd'.2 hdis']
    simp [List.reverse_cons, List.append_assoc]

theorem dedupFirstAux_all_seen :
    ∀ (l seen rest : List String), (∀ x ∈ l, x ∈ seen) →
      dedupFirstAux seen (l ++ rest) = dedupFirstAux seen rest := by
  intro l
  induction l with
  | nil =>
    intro _ _ _
    simp
  | cons x l' ih =>
    intro seen rest hsub
    simp only [List.cons_append, dedupFirstAux,
      if_pos (hsub x (List.mem_cons_self _ _))]
    exact ih seen rest (fun y hy => hsub y (List.mem_cons_of_mem _ hy))

theorem allTermsOf_corpusCE : allTermsOf corpusCE = tsCE ++ ["uu", "uu uu"] := by
  unfold allTermsOf dedupFirst
  rw [occurrencesOf_corpusCE, List.append_assoc]
  rw [dedupFirstAux_nodup_block tsCE [] _ tsCE_nodup (by simp)]
  rw [dedupFirstAux_all_seen tsCE _ _ (by
    intro x hx
    exact List.mem_append.mpr (Or.inl (List.mem_reverse.mpr hx)))]
  refine congrArg (fun z => tsCE ++ z) ?_
  have hseen : ∀ (s : String), s ∉ tsCE →
      s ∉ (tsCE.reverse ++ ([] : List String)) := by
    intro s hs hmem
    rcases List.mem_append.mp hmem with h | h
    · exact hs (List.mem_reverse.mp h)
    · simp at h
  have huu := hseen _ uu_not_mem_tsCE
  have huuuu := hseen _ uuuu_not_mem_tsCE
  have step_skip : ∀ (seen rest : List String) (x : String), x ∈ seen →
      dedupFirstAux seen (x :: rest) = dedupFirstAux seen rest := by
    intro seen rest x hx
    simp only [dedupFirstAux, if_pos hx]
  have step_keep : ∀ (seen rest : List String) (x : String), x ∉ seen →
      dedupFirstAux seen (x :: rest) = x :: dedupFirstAux (x :: seen) rest := by
    intro seen rest x hx
    simp only [dedupFirstAux, if_neg hx]
  have huuuu' : "uu uu" ∉ ("uu" :: (tsCE.reverse ++ ([] : List String))) := by
    intro hmem
    rcases List.mem_cons.mp hmem with heq | hmem'
    · exact absurd heq (by decide)
    · exact huuuu hmem'
  rw [step_keep _ _ _ huu, step_skip _ _ _ (List.mem_cons_self _ _),
    step_skip _ _ _ (List.mem_cons_self _ _), step_keep _ _ _ huuuu',
    step_skip _ _ _ (List.mem_cons_self _ _)]
  rfl

theorem count_tsCE_tokA {i : Nat} (h : i < 1001) : tsCE.count (tokA i) = 1 :=
  List.count_eq_one_of_mem tsCE_nodup
    (List.mem_map.mpr ⟨i, List.mem_range.mpr h, rfl⟩)

theorem tfOf_corpusCE_tokA {i : Nat} (h : i < 1001) :
    tfOf corpusCE (tokA i) = 2 := by
  unfold tfOf
  rw [occurrencesOf_corpusCE, List.count_append, List.count_append,
    count_tsCE_tokA h]
  rw [List.count_eq_zero.mpr (by
    intro hmem
    simp only [List.mem_cons, List.not_mem_nil, or_false] at hmem
    rcases hmem with h' | h' | h' | h' | h'
    · exact tokA_ne_uu i h'
    · exact tokA_ne_uu i h'
    · exact tokA_ne_uu i h'
    · exact tokA_ne_uuuu i h'
    · exact tokA_ne_uuuu i h')]

theorem tfOf_corpusCE_uu : tfOf corpusCE "uu" = 3 := by
  unfold tfOf
  rw [occurrencesOf_corpusCE, List.count_append, List.count_append,
    List.count_eq_zero.mpr uu_not_mem_tsCE]
  decide

theorem tfOf_corpusCE_uuuu : tfOf corpusCE ("uu uu") = 2 := by
  unfold tfOf
  rw [occurrencesOf_corpusCE, List.count_append, List.count_append,
    List.count_eq_zero.mpr uuuu_not_mem_tsCE]
  decide

theorem pairs_corpusCE :
    (allTermsOf corpusCE).map (fun u => (u, tfOf corpusCE u))
      = tsCE.map (fun t => (t, 2)) ++ [("uu", 3), ("uu uu", 2)] := by
  rw [allTermsOf_corpusCE, List.map_append]
  refine congrArg₂ (· ++ ·) ?_ ?_
  · refine List.map_congr_left (fun t ht => ?_)
    obtain ⟨i, hi, rfl⟩ := List.mem_map.mp ht
    rw [tfOf_corpusCE_tokA (List.mem_range.mp hi)]
  · simp [tfOf_corpusCE_uu, tfOf_corpusCE_uuuu]

theorem orderedInsert_key2 (p : String × Nat) (hp : p.2 = 2)
    (l : List (String × Nat)) (v : String) (hl : ∀ q ∈ l, q.2 = 2) :
    List.orderedInsert byTfDesc p (l ++ [(v, 2)]) = p :: (l ++ [(v, 2)]) := by
  cases l with
  | nil => simp [List.orderedInsert, byTfDesc, hp]
  | cons q l' =>
    have hq := hl q (List.mem_cons_self _ _)
    simp [List.orderedInsert, byTfDesc, hp, hq]

theorem insertionSort_two_block :
    ∀ (l : List (String × Nat)), (∀ p ∈ l, p.2 = 2) → ∀ u v : String,
      List.insertionSort byTfDesc (l ++ [(u, 3), (v, 2)])
        = (u, 3) :: (l ++ [(v, 2)]) := by
  intro l
  induction l with
  | nil =>
    intro _ u v
    simp [List.insertionSort, List.orderedInsert, byTfDesc]
  | cons p l' ih =>
    intro hl u v
    have hp : p.2 = 2 := hl p (List.mem_cons_self _ _)
    simp only [List.cons_append, List.insertionSort, List.append_eq]
    rw [ih (fun q hq => hl q (List.mem_cons_of_mem _ hq)) u v]
    simp only [List.orderedInsert]
    rw [if_neg (by simp [byTfDesc, hp]),
      orderedInsert_key2 p hp l' v (fun q hq => hl q (List.mem_cons_of_mem _ hq))]

theorem length_allTermsOf_corpusCE : (allTermsOf corpusCE).length = 1003 := by
  rw [allTermsOf_corpusCE]
  simp [tsCE]

theorem keptTerms_corpusCE :
    keptTerms 1000 corpusCE = "uu" :: (List.range 999).map tokA := by
  unfold keptTerms
  rw [if_neg (by rw [length_allTermsOf_corpusCE]; omega)]
  rw [pairs_corpusCE]
  rw [insertionSort_two_block (tsCE.map (fun t => (t, 2)))
    (by
      intro p hp
      obtain ⟨t, _, rfl⟩ := List.mem_map.mp hp
      rfl)
    ("uu") ("uu uu")]
  rw [show (1000 : Nat) = 999 + 1 from rfl, List.take_succ_cons]
  rw [List.take_append_of_le_length (by simp [tsCE])]
  rw [← List.map_take]
  unfold tsCE
  rw [← List.map_take, List.take_range, min_eq_left (by omega)]
  simp [List.map_map, Function.comp]

theorem uu_mem_vocabCE : "uu" ∈ trainVectorizerVocab corpusCE := by
  unfold trainVectorizerVocab fitVocab
  refine ((List.perm_insertionSort _ _).mem_iff).mpr ?_
  rw [keptTerms_corpusCE]
  exact List.mem_cons_self _ _

theorem tokA999_not_mem_vocabCE :
    tokA 999 ∉ trainVectorizerVocab corpusCE := by
  unfold trainVectorizerVocab fitVocab
  intro h
  have h' := ((List.perm_insertionSort _ _).mem_iff).mp h
  rw [keptTerms_corpusCE] at h'
  rcases List.mem_cons.mp h' with heq | hmem
  · exact tokA_ne_uu 999 heq
  · obtain ⟨i, hi, hEq⟩ := List.mem_map.mp hmem
    have : i = 999 := tokA_inj hEq
    subst this
    exact absurd (List.mem_range.mp hi) (by omega)

theorem tokA999_mem_allTermsCE : tokA 999 ∈ allTermsOf corpusCE := by
  rw [allTermsOf_corpusCE]
  refine List.mem_append.mpr (Or.inl ?_)
  exact List.mem_map.mpr ⟨999, List.mem_range.mpr (by omega), rfl⟩

theorem filter_range_single :
    ∀ (n k : Nat), k < n →
      (List.range n).filter (fun i => decide (i = k)) = [k] := by
  intro n
  induction n with
  | zero =>
    intro k h
    exact absurd h (by omega)
  | succ m ih =>
    intro k h
    rw [List.range_succ, List.filter_append]
    by_cases hk : k = m
    · subst hk
      rw [List.filter_eq_nil_iff.mpr (by
        intro i hi
        simp only [decide_eq_true_eq]
        exact Nat.ne_of_lt (List.mem_range.mp hi))]
      simp
    · rw [ih k (by omega)]
      rw [List.filter_cons, if_neg (by simp; omega)]
      simp

theorem dfOf_corpusCE_uu : dfOf corpusCE "uu" = 1 := by
  unfold dfOf corpusCE
  rw [List.filter_append, List.filter_append]
  have hts : tsCE.filter (fun d => decide ("uu" ∈ docTerms d)) = [] := by
    rw [List.filter_eq_nil_iff]
    intro d hd
    obtain ⟨i, _, rfl⟩ := List.mem_map.mp hd
    simp only [docTerms_tokA, List.mem_singleton, decide_eq_true_eq]
    exact fun hEq => tokA_ne_uu i hEq.symm
  rw [hts]
  rw [show ((["uu uu uu"] : List String).filter
      (fun d => decide ("uu" ∈ docTerms d))) = ["uu uu uu"] from by
    rw [List.filter_cons, if_pos (by simp [docTerms_uuu])]
    rfl]
  rfl

theorem dfOf_corpusCE_tokA999 : dfOf corpusCE (tokA 999) = 2 := by
  unfold dfOf corpusCE
  rw [List.filter_append, List.filter_append]
  have hts : tsCE.filter (fun d => decide (tokA 999 ∈ docTerms d))
      = [tokA 999] := by
    unfold tsCE
    rw [List.filter_map]
    rw [List.filter_congr (fun i _ => show
        ((fun d => decide (tokA 999 ∈ docTerms d)) ∘ tokA) i
          = (fun j => decide (j = 999)) i from by
      simp only [Function.comp_apply]
      simp only [docTerms_tokA, List.mem_singleton]
      exact decide_eq_decide.mpr
        ⟨fun hEq => (tokA_inj hEq).symm, fun hEq => by rw [hEq]⟩)]
    rw [filter_range_single 1001 999 (by omega)]
    rfl
  rw [hts]
  rw [show ((["uu uu uu"] : List String).filter
      (fun d => decide (tokA 999 ∈ docTerms d))) = [] from by
    rw [List.filter_eq_nil_iff]
    intro d hd
    simp only [List.mem_singleton] at hd
    subst hd
    simp only [docTerms_uuu, decide_eq_true_eq]
    intro hmem
    simp only [List.mem_cons, List.not_mem_nil, or_false] at hmem
    rcases hmem with h' | h' | h' | h' | h'
    · exact tokA_ne_uu 999 h'
    · exact tokA_ne_uu 999 h'
    · exact tokA_ne_uu 999 h'
    · exact tokA_ne_uuuu 999 h'
    · exact tokA_ne_uuuu 999 h']
  rfl

/-- C7 counterexample: at the concrete corpus `corpusCE` (1003 distinct
terms, so the 1000-entry cap is active) the fitted vocabulary contains the
term `uu`, whose document frequency is 1, while the term `tokA 999` —
present in the corpus with strictly greater document frequency 2 — is
excluded.  The vocabulary is therefore not "the most informative terms
selected by document frequency": scikit-learn's `max_features` cap selects
by term frequency (`uu` occurs 3 times in one document), not by document
frequency. -/
theorem c7_counterexample :
    "uu" ∈ trainVectorizerVocab corpusCE
    ∧ tokA 999 ∈ allTermsOf corpusCE
    ∧ tokA 999 ∉ trainVectorizerVocab corpusCE
    ∧ dfOf corpusCE "uu" = 1
    ∧ dfOf corpusCE (tokA 999) = 2 :=
  ⟨uu_mem_vocabCE, tokA999_mem_allTermsCE, tokA999_not_mem_vocabCE,
   dfOf_corpusCE_uu, dfOf_corpusCE_tokA999⟩

/-- Witness for C7 (amended) at the concrete corpus `corpusCE`: the
hypotheses of the top-by-term-frequency conjunct are satisfiable, and the
conclusion compares the term frequencies of the dropped and kept terms. -/
theorem c7_vocab_top_terms_witness :
    "uu" ∈ trainVectorizerVocab corpusCE
    ∧ tfOf corpusCE (tokA 999) ≤ tfOf corpusCE "uu" :=
  ⟨uu_mem_vocabCE,
   (c7_vocab_top_terms corpusCE).2.2 "uu" uu_mem_vocabCE (tokA 999)
     tokA999_mem_allTermsCE tokA999_not_mem_vocabCE⟩

end Dekut
